import Mathlib

/-!
Shallow embedding of `src/transformer/Dataset.py`: the vocabulary table
(`Vocab`), the batch accumulator (`Batch`) and the batching pipeline of
`Dataset.__iter__`, together with proofs of the specification claims about
them.

External library calls are modelled as follows:
* `np.random.shuffle(Pos)` (line 114) — the shuffled list `perm` is an
  explicit argument; theorems constrain it to a permutation of
  `range n_lines`.
* `np.argsort(shard_len)` (line 138) and `np.random.shuffle(idx_batchs)`
  (line 158) — each shard consumes one pair of index-list oracles,
  constrained to permutations of the corresponding `range` in the theorems.
* exceptions (`assert`, `KeyError`, `ValueError`) — `Option`, with `none`
  for the raised exception.
-/

/-- `Vocab`: the ordered token list read from the vocabulary file
(`self.idx_to_tok`, line 26); the index in this list is the id. -/
structure Vocab where
  idx_to_tok : List String
deriving Repr, DecidableEq

/-- `self.idx_pad = 0` (line 15). -/
def Vocab.idx_pad (_ : Vocab) : Nat := 0

/-- `self.idx_unk = 1` (line 17). -/
def Vocab.idx_unk (_ : Vocab) : Nat := 1

/-- `self.idx_bos = 2` (line 19). -/
def Vocab.idx_bos (_ : Vocab) : Nat := 2

/-- `self.idx_eos = 3` (line 21). -/
def Vocab.idx_eos (_ : Vocab) : Nat := 3

/-- `self.tok_to_idx = {k:i for i,k in enumerate(self.idx_to_tok)}`
(line 27): a dict built by inserting `k ↦ i` in enumeration order, so a
token occurring several times is mapped to its LAST index.  Modelled as
lookup in the map built by the same left fold over the enumeration. -/
def Vocab.tok_to_idx (v : Vocab) (s : String) : Option Nat :=
  (List.range v.idx_to_tok.length).foldl
    (fun acc i => if v.idx_to_tok.getD i "" = s then some i else acc) none

/-- `Vocab.__init__` (lines 14-31) after the file has been read into
`lines`: the four `assert`s demand `tok_to_idx[m] == i` for the reserved
markers (a missing marker raises `KeyError`, a wrong id an
`AssertionError`; both detectable errors are modelled as `none`). -/
def vocabInit (lines : List String) : Option Vocab :=
  if Vocab.tok_to_idx ⟨lines⟩ "<pad>" = some 0 ∧
      Vocab.tok_to_idx ⟨lines⟩ "<unk>" = some 1 ∧
      Vocab.tok_to_idx ⟨lines⟩ "<bos>" = some 2 ∧
      Vocab.tok_to_idx ⟨lines⟩ "<eos>" = some 3 then
    some ⟨lines⟩
  else
    none

/-- `Vocab.__contains__` on an `int` (lines 38-39):
`s < len(self.idx_to_tok)`, with no lower bound. -/
def Vocab.containsInt (v : Vocab) (n : Int) : Bool :=
  decide (n < (v.idx_to_tok.length : Int))

/-- `Vocab.__contains__` on a string (line 40): `s in self.tok_to_idx`. -/
def Vocab.containsStr (v : Vocab) (s : String) : Bool :=
  (v.tok_to_idx s).isSome

/-- Python list indexing `l[n]` for an `int` index: a negative index
addresses from the end (`l[n]` is `l[len(l)+n]` for `-len(l) ≤ n < 0`);
out of range raises `IndexError` (`none`). -/
def pyListGet (l : List String) (n : Int) : Option String :=
  if 0 ≤ n then
    if n < (l.length : Int) then some (l.getD n.toNat "") else none
  else
    if -(l.length : Int) ≤ n then
      some (l.getD ((l.length : Int) + n).toNat "")
    else
      none

/-- `Vocab.__getitem__` on an `int` (lines 43-44): `self.idx_to_tok[s]`. -/
def Vocab.getItemInt (v : Vocab) (n : Int) : Option String :=
  pyListGet v.idx_to_tok n

/-- `Vocab.__getitem__` on a string (lines 45-48): the mapped id, or
`idx_unk` if absent. -/
def Vocab.getItemStr (v : Vocab) (s : String) : Nat :=
  (v.tok_to_idx s).getD v.idx_unk

/-- `batch_type` configuration: the `Batch.__init__` assert (line 58) makes
any other value a fatal configuration error, so only these two states are
representable. -/
inductive BatchType
  | sentences
  | tokens
deriving Repr, DecidableEq

/-- The batch accumulator (`class Batch`, lines 53-80). -/
structure Batch where
  batch_size : Nat
  batch_type : BatchType
  Pos : List Nat
  max_lens : List Nat
deriving Repr, DecidableEq

/-- `Batch.reset` (lines 60-62). -/
def Batch.reset (b : Batch) (n_files : Nat) : Batch :=
  { b with Pos := [], max_lens := List.replicate n_files 0 }

/-- The rejection test at the top of `Batch.add` (lines 66-72): under
`tokens`, some side `i` has `max(self.max_lens[i], lens[i]) *
(len(self.Pos)+1) > self.batch_size`; under `sentences`,
`len(self.Pos) == self.batch_size`. -/
def Batch.rejects (b : Batch) (lens : List Nat) : Bool :=
  match b.batch_type with
  | BatchType.tokens =>
    (List.zipWith
        (fun m l => decide (Nat.max m l * (b.Pos.length + 1) > b.batch_size))
        b.max_lens lens).any id
  | BatchType.sentences => b.Pos.length == b.batch_size

/-- `Batch.add` (lines 64-77): the updated accumulator paired with the
Python return value (`False` leaves the accumulator unchanged; `True`
appends `pos` and raises each tracked per-side maximum, line 74-77). -/
def Batch.add (b : Batch) (pos : Nat) (lens : List Nat) : Batch × Bool :=
  if b.rejects lens then
    (b, false)
  else
    ({ b with
        Pos := b.Pos ++ [pos]
        max_lens :=
          List.zipWith Nat.max b.max_lens lens ++ b.max_lens.drop lens.length },
      true)

/-- The in-memory state of `Dataset` after `__init__` (lines 86-107):
`File_Line_Idx` holds, per side, the id sequence of every line. -/
structure Dataset where
  shard_size : Nat
  batch_size : Nat
  batch_type : BatchType
  max_length : Nat
  idx_bos : List Nat
  idx_eos : List Nat
  File_Line_Idx : List (List (List Nat))
deriving Repr, DecidableEq

/-- `n_files = len(self.File_Line_Idx)` (line 111). -/
def Dataset.n_files (D : Dataset) : Nat := D.File_Line_Idx.length

/-- `n_lines = len(self.File_Line_Idx[0])` (line 112). -/
def Dataset.n_lines (D : Dataset) : Nat := (D.File_Line_Idx.getD 0 []).length

/-- `self.File_Line_Idx[n][pos]`. -/
def Dataset.line (D : Dataset) (n pos : Nat) : List Nat :=
  (D.File_Line_Idx.getD n []).getD pos []

/-- `len(self.File_Line_Idx[n][pos])`: the raw (unwrapped) length of
example `pos` on side `n`. -/
def Dataset.rawLen (D : Dataset) (n pos : Nat) : Nat := (D.line n pos).length

/-- `maxl = max([len(self.File_Line_Idx[n][pos]) for n in range(n_files)])`
(line 128); `n_files ≥ 1` whenever the iterator runs, so the extra `0` in
the fold is absorbed. -/
def Dataset.maxRawLen (D : Dataset) (pos : Nat) : Nat :=
  ((List.range D.n_files).map (fun n => D.rawLen n pos)).foldr Nat.max 0

/-- The filter step (lines 126-131): `pos` is kept unless `max_length` is
nonzero (Python truthiness) and the max raw length over the sides exceeds
it. -/
def Dataset.keep (D : Dataset) (pos : Nat) : Bool :=
  (D.max_length == 0) || decide (D.maxRawLen pos ≤ D.max_length)

/-- `lens = [len(self.File_Line_Idx[n][pos])+2 for n in range(n_files)]`
(line 144): raw length plus 2, reserving room for the bos/eos markers. -/
def Dataset.lens (D : Dataset) (pos : Nat) : List Nat :=
  (List.range D.n_files).map (fun n => D.rawLen n pos + 2)

/-- The accumulator as freshly built and reset for a shard
(lines 141-142). -/
def Dataset.freshBatch (D : Dataset) : Batch :=
  (Batch.mk D.batch_size D.batch_type [] []).reset D.n_files

/-- Whether `pos` would be accepted by `Batch.add` on a freshly reset
accumulator.  The examples failing this are exactly the ones whose retry
`b.add(pos,lens)` on line 149 fails, its return value being ignored. -/
def Dataset.fits0 (D : Dataset) (pos : Nat) : Bool :=
  !D.freshBatch.rejects (D.lens pos)

/-- The packing loop body (lines 143-149): process the remaining sorted
positions with the current accumulator, returning the saved batches in
order together with the final accumulator state.  On rejection the
non-empty accumulator is flushed and reset, and the add is retried; the
retry's return value is ignored (`### add current example (may be
discarded if it does not fit)`). -/
def packLoop (D : Dataset) (b : Batch) : List Nat → List (List Nat) × Batch
  | [] => ([], b)
  | pos :: rest =>
    if (b.add pos (D.lens pos)).2 then
      packLoop D (b.add pos (D.lens pos)).1 rest
    else
      if b.Pos.length ≠ 0 then
        let r := packLoop D (((b.reset D.n_files).add pos (D.lens pos)).1) rest
        (b.Pos :: r.1, r.2)
      else
        packLoop D ((b.add pos (D.lens pos)).1) rest

/-- Run the packing loop from accumulator `b` and flush the final
non-empty accumulator (lines 150-152). -/
def packOut (D : Dataset) (b : Batch) (ps : List Nat) : List (List Nat) :=
  let r := packLoop D b ps
  if r.2.Pos.length ≠ 0 then r.1 ++ [r.2.Pos] else r.1

/-- Lines 140-152: pack one shard's sorted position list into batches,
starting from a freshly reset accumulator. -/
def packShard (D : Dataset) (sortedPos : List Nat) : List (List Nat) :=
  packOut D D.freshBatch sortedPos

/-- Lines 157-167 for one shard: visit the batch list in the order of the
shuffled index list `idx_batchs` and build the bos/eos-wrapped id
sequences per side. -/
def yieldShard (D : Dataset) (batchs : List (List Nat)) (idx_batchs : List Nat) :
    List (List Nat × List (List (List Nat))) :=
  idx_batchs.map (fun i =>
    let bp := batchs.getD i []
    (bp,
      (List.range D.n_files).map (fun n =>
        bp.map (fun pos =>
          [D.idx_bos.getD n 0] ++ D.line n pos ++ [D.idx_eos.getD n 0]))))

/-- The per-shard work of `__iter__` (lines 120-167).  Each shard consumes
one oracle pair `o`: `o.1` plays `np.argsort(shard_len)` (line 138), so the
kept positions are visited as `shard_pos[o.1[0]], shard_pos[o.1[1]], …`;
`o.2` plays the shuffled `idx_batchs` (lines 157-158). -/
def iterShards (D : Dataset) :
    List (List Nat) → List (List Nat × List Nat) →
    List (List Nat × List (List (List Nat)))
  | shard :: shards, o :: os =>
    let shard_pos := shard.filter D.keep
    let sorted := o.1.map (fun i => shard_pos.getD i 0)
    yieldShard D (packShard D sorted) o.2 ++ iterShards D shards os
  | _, _ => []

/-- `[Pos[i:i+ss] for i in range(0, n_lines, ss)]` (line 118), by fuel
recursion; `iterPass` only calls it with a nonzero `ss`, under which the
fuel `l.length` suffices. -/
def chunkGo (ss : Nat) : Nat → List Nat → List (List Nat)
  | _, [] => []
  | 0, _ :: _ => []
  | fuel + 1, a :: l => (a :: l).take ss :: chunkGo ss fuel ((a :: l).drop ss)

/-- Split a list into contiguous chunks of size `ss` (the shards of one
pass). -/
def chunk (ss : Nat) (l : List Nat) : List (List Nat) :=
  chunkGo ss l.length l

/-- The shard size actually used by the pass: lines 116-117 replace a zero
`shard_size` by `n_lines` before chunking. -/
def Dataset.effShardSize (D : Dataset) : Nat :=
  if D.shard_size = 0 then D.n_lines else D.shard_size

/-- `Dataset.__iter__` (lines 109-167) as one full pass collected into a
list.  `perm` is the shuffled `Pos` (lines 113-114); `oracles` supplies the
per-shard argsort/shuffle index lists.  `none` models a raised exception:
the `assert len(self.File_Line_Idx) > 0, 'Empty dataset'` (line 110), and
the `ValueError` of `range(0, n_lines, 0)` hit when `shard_size == 0` and
the corpus has no lines (lines 116-118). -/
def iterPass (D : Dataset) (perm : List Nat)
    (oracles : List (List Nat × List Nat)) :
    Option (List (List Nat × List (List (List Nat)))) :=
  if D.File_Line_Idx.length = 0 then
    none
  else
    if D.effShardSize = 0 then
      none
    else
      some (iterShards D (chunk D.effShardSize perm) oracles)

/-- `Dataset.__init__` lines 94-107, starting from the already-split token
lines of each side (file reading and logging are I/O glue): every token is
mapped through the side's vocabulary (`[[voc[t] for t in l.split()] for l
in …]`, line 102), and the per-side `idx_bos`/`idx_eos` are collected
(lines 99-100). -/
def datasetOfLines (tokLines : List (List (List String))) (vocs : List Vocab)
    (shard_size batch_size : Nat) (bt : BatchType) (max_length : Nat) :
    Dataset :=
  { shard_size := shard_size
    batch_size := batch_size
    batch_type := bt
    max_length := max_length
    idx_bos := vocs.map Vocab.idx_bos
    idx_eos := vocs.map Vocab.idx_eos
    File_Line_Idx :=
      List.zipWith (fun voc lines => lines.map (fun l => l.map voc.getItemStr))
        vocs tokLines }

/-! ### Vocabulary lemmas -/

theorem tok_to_idx_nil (s : String) : Vocab.tok_to_idx ⟨[]⟩ s = none := rfl

theorem tok_to_idx_concat (l : List String) (t s : String) :
    Vocab.tok_to_idx ⟨l ++ [t]⟩ s =
      if t = s then some l.length else Vocab.tok_to_idx ⟨l⟩ s := by
  unfold Vocab.tok_to_idx
  have hlen : (l ++ [t]).length = l.length + 1 := by simp
  rw [hlen, List.range_succ, List.foldl_append]
  simp only [List.foldl_cons, List.foldl_nil]
  have hfold :
      List.foldl (fun acc i => if (l ++ [t]).getD i "" = s then some i else acc)
          none (List.range l.length) =
        List.foldl (fun acc i => if l.getD i "" = s then some i else acc)
          none (List.range l.length) := by
    apply List.foldl_ext
    intro a b hb
    rw [List.getD_append _ _ _ _ (List.mem_range.mp hb)]
  rw [hfold]
  have hlast : (l ++ [t]).getD l.length "" = t := by
    rw [List.getD_append_right _ _ _ _ (Nat.le_refl _)]
    simp
  rw [hlast]

theorem tok_to_idx_some_iff (l : List String) (s : String) (i : Nat) :
    Vocab.tok_to_idx ⟨l⟩ s = some i ↔
      i < l.length ∧ l.getD i "" = s ∧
        ∀ j, i < j → j < l.length → l.getD j "" ≠ s := by
  induction l using List.reverseRecOn with
  | nil => simp [tok_to_idx_nil]
  | append_singleton l t ih =>
    rw [tok_to_idx_concat]
    have hlast : (l ++ [t]).getD l.length "" = t := by
      rw [List.getD_append_right _ _ _ _ (Nat.le_refl _)]
      simp
    by_cases ht : t = s
    · rw [if_pos ht]
      constructor
      · intro h
        obtain rfl := Option.some.inj h
        refine ⟨by simp, by rw [hlast]; exact ht, ?_⟩
        intro j hj1 hj2
        simp at hj2
        omega
      · rintro ⟨h1, h2, h3⟩
        have hi : i = l.length := by
          by_contra hne
          have hil : i < l.length := by
            simp at h1
            omega
          exact h3 l.length hil (by simp) (by rw [hlast]; exact ht)
        rw [hi]
    · rw [if_neg ht, ih]
      constructor
      · rintro ⟨h1, h2, h3⟩
        refine ⟨by simp; omega, by rw [List.getD_append _ _ _ _ h1]; exact h2, ?_⟩
        intro j hj1 hj2
        by_cases hjl : j < l.length
        · rw [List.getD_append _ _ _ _ hjl]
          exact h3 j hj1 hjl
        · have hj : j = l.length := by
            simp at hj2
            omega
          rw [hj, hlast]
          exact ht
      · rintro ⟨h1, h2, h3⟩
        have hi : i < l.length := by
          by_contra hge
          have hieq : i = l.length := by
            simp at h1
            omega
          rw [hieq, hlast] at h2
          exact ht h2
        refine ⟨hi, by rw [List.getD_append _ _ _ _ hi] at h2; exact h2, ?_⟩
        intro j hj1 hj2
        have hj := h3 j hj1 (by simp; omega)
        rw [List.getD_append _ _ _ _ hj2] at hj
        exact hj

theorem tok_to_idx_some_spec (v : Vocab) (s : String) (i : Nat)
    (h : v.tok_to_idx s = some i) :
    i < v.idx_to_tok.length ∧ v.idx_to_tok.getD i "" = s := by
  have h2 := (tok_to_idx_some_iff v.idx_to_tok s i).mp h
  exact ⟨h2.1, h2.2.1⟩

/-- Round trip through the table: a token the vocabulary contains is
reproduced by `tokenOf (idOf t)`, i.e. `Vocab.__getitem__` at the id that
`Vocab.__getitem__` assigned to the string. -/
theorem containsStr_roundTrip (v : Vocab) (s : String)
    (h : v.containsStr s = true) :
    v.getItemInt (v.getItemStr s : Nat) = some s := by
  obtain ⟨i, hi⟩ := Option.isSome_iff_exists.mp h
  obtain ⟨h1, h2⟩ := tok_to_idx_some_spec v s i hi
  have hstr : v.getItemStr s = i := by
    unfold Vocab.getItemStr
    rw [hi]
    rfl
  rw [hstr]
  unfold Vocab.getItemInt pyListGet
  rw [if_pos (Int.natCast_nonneg i), if_pos (by exact_mod_cast h1)]
  rw [Int.toNat_natCast, h2]

theorem take4_eq_iff (l : List String) (a b c d : String) :
    l.take 4 = [a, b, c, d] ↔
      4 ≤ l.length ∧ l.getD 0 "" = a ∧ l.getD 1 "" = b ∧
        l.getD 2 "" = c ∧ l.getD 3 "" = d := by
  rcases l with _ | ⟨x0, _ | ⟨x1, _ | ⟨x2, _ | ⟨x3, tl⟩⟩⟩⟩ <;>
    simp [List.getD, List.take_succ_cons]

theorem getD_mem_drop4 (l : List String) (j : Nat) (h4 : 4 ≤ j)
    (hj : j < l.length) : l.getD j "" ∈ l.drop 4 := by
  apply List.mem_iff_getElem.mpr
  refine ⟨j - 4, by simp; omega, ?_⟩
  rw [List.getElem_drop, List.getD_eq_getElem _ _ hj]
  congr 1
  omega

theorem mem_drop4_getD (l : List String) (m : String) (h : m ∈ l.drop 4) :
    ∃ j, 4 ≤ j ∧ j < l.length ∧ l.getD j "" = m := by
  obtain ⟨j, hj, heq⟩ := List.mem_iff_getElem.mp h
  have hjl : 4 + j < l.length := by simp at hj; omega
  refine ⟨4 + j, by omega, hjl, ?_⟩
  rw [List.getD_eq_getElem _ _ hjl, ← List.getElem_drop]
  exact heq

/-- C6 (amended): `Vocab.__init__` succeeds exactly when the first four
entries are the pad/unknown/begin/end markers in that order AND no marker
string occurs again after position 3.  A repeated marker moves its
`tok_to_idx` id to the later occurrence, so an assert fails even though
the first four entries are correct; in every other failing case (fewer
than 4 entries, or wrong first four entries) a `KeyError` or
`AssertionError` is raised as the claim states. -/
theorem vocabInit_isSome_iff (lines : List String) :
    (vocabInit lines).isSome = true ↔
      (lines.take 4 = ["<pad>", "<unk>", "<bos>", "<eos>"] ∧
        ∀ m ∈ ["<pad>", "<unk>", "<bos>", "<eos>"], m ∉ lines.drop 4) := by
  have hsome :
      (vocabInit lines).isSome = true ↔
        (Vocab.tok_to_idx ⟨lines⟩ "<pad>" = some 0 ∧
          Vocab.tok_to_idx ⟨lines⟩ "<unk>" = some 1 ∧
          Vocab.tok_to_idx ⟨lines⟩ "<bos>" = some 2 ∧
          Vocab.tok_to_idx ⟨lines⟩ "<eos>" = some 3) := by
    unfold vocabInit
    split
    · rename_i h
      exact iff_of_true rfl h
    · rename_i h
      exact iff_of_false (by simp) h
  rw [hsome, take4_eq_iff]
  rw [tok_to_idx_some_iff, tok_to_idx_some_iff, tok_to_idx_some_iff,
    tok_to_idx_some_iff]
  constructor
  · rintro ⟨⟨hp1, hp2, hp3⟩, ⟨hu1, hu2, hu3⟩, ⟨hb1, hb2, hb3⟩, ⟨he1, he2, he3⟩⟩
    refine ⟨⟨by omega, hp2, hu2, hb2, he2⟩, ?_⟩
    intro m hm hmem
    obtain ⟨j, hj4, hjl, hjeq⟩ := mem_drop4_getD lines m hmem
    simp only [List.mem_cons, List.not_mem_nil, or_false] at hm
    rcases hm with rfl | rfl | rfl | rfl
    · exact hp3 j (by omega) hjl hjeq
    · exact hu3 j (by omega) hjl hjeq
    · exact hb3 j (by omega) hjl hjeq
    · exact he3 j (by omega) hjl hjeq
  · rintro ⟨⟨hlen, h0, h1, h2, h3⟩, hnd⟩
    have hnotin : ∀ m ∈ (["<pad>", "<unk>", "<bos>", "<eos>"] : List String),
        ∀ j, 4 ≤ j → j < lines.length → lines.getD j "" ≠ m := by
      intro m hm j hj4 hjl heq
      exact hnd m hm (heq ▸ getD_mem_drop4 lines j hj4 hjl)
    refine ⟨⟨by omega, h0, ?_⟩, ⟨by omega, h1, ?_⟩, ⟨by omega, h2, ?_⟩,
      ⟨by omega, h3, ?_⟩⟩
    · intro j hj1 hj2
      by_cases hj4 : 4 ≤ j
      · exact hnotin "<pad>" (by decide) j hj4 hj2
      · interval_cases j
        · rw [h1]; decide
        · rw [h2]; decide
        · rw [h3]; decide
    · intro j hj1 hj2
      by_cases hj4 : 4 ≤ j
      · exact hnotin "<unk>" (by decide) j hj4 hj2
      · interval_cases j
        · rw [h2]; decide
        · rw [h3]; decide
    · intro j hj1 hj2
      by_cases hj4 : 4 ≤ j
      · exact hnotin "<bos>" (by decide) j hj4 hj2
      · interval_cases j
        · rw [h3]; decide
    · intro j hj1 hj2
      by_cases hj4 : 4 ≤ j
      · exact hnotin "<eos>" (by decide) j hj4 hj2
      · omega

/-- Witness for C6's amended theorem at a concrete well-formed
vocabulary. -/
theorem vocabInit_isSome_iff_witness :
    (vocabInit ["<pad>", "<unk>", "<bos>", "<eos>", "a", "b"]).isSome = true :=
  (vocabInit_isSome_iff ["<pad>", "<unk>", "<bos>", "<eos>", "a", "b"]).mpr
    (by decide)

/-- C6 counterexample: a vocabulary whose first four entries are exactly
the markers in order, but whose construction still fails, because
`<pad>` occurs again at position 4 and the dict comprehension maps it to
id 4. -/
theorem vocabInit_dup_marker_cex :
    ["<pad>", "<unk>", "<bos>", "<eos>", "<pad>"].take 4 =
        ["<pad>", "<unk>", "<bos>", "<eos>"] ∧
      vocabInit ["<pad>", "<unk>", "<bos>", "<eos>", "<pad>"] = none := by
  constructor
  · rfl
  · decide

/-- C10: `Vocab.__contains__` on an integer checks only `n < size`, so
every negative integer is reported as contained, and for
`-size ≤ n < 0` the id-to-token lookup `Vocab.__getitem__` returns the
entry at position `size + n` instead of failing. -/
theorem containsInt_no_lower_bound (v : Vocab) (n : Int) :
    (v.containsInt n = true ↔ n < (v.idx_to_tok.length : Int)) ∧
      (n < 0 → v.containsInt n = true) ∧
      (-(v.idx_to_tok.length : Int) ≤ n → n < 0 →
        v.getItemInt n =
          some (v.idx_to_tok.getD ((v.idx_to_tok.length : Int) + n).toNat "")) := by
  refine ⟨?_, ?_, ?_⟩
  · simp [Vocab.containsInt]
  · intro hn
    simp only [Vocab.containsInt, decide_eq_true_eq]
    omega
  · intro h1 h2
    unfold Vocab.getItemInt pyListGet
    rw [if_neg (by omega), if_pos h1]

/-- Witness for C10 at a concrete vocabulary and the negative index -2. -/
theorem containsInt_no_lower_bound_witness :
    (Vocab.mk ["<pad>", "<unk>", "<bos>", "<eos>", "a"]).containsInt (-2) =
        true ∧
      (Vocab.mk ["<pad>", "<unk>", "<bos>", "<eos>", "a"]).getItemInt (-2) =
        some "<eos>" := by
  have h :=
    containsInt_no_lower_bound (Vocab.mk ["<pad>", "<unk>", "<bos>", "<eos>", "a"])
      (-2)
  exact ⟨h.2.1 (by decide), (h.2.2 (by decide) (by decide)).trans (by decide)⟩

/-! ### Batch accumulator lemmas -/

theorem add_snd_eq (b : Batch) (pos : Nat) (lens : List Nat) :
    (b.add pos lens).2 = !b.rejects lens := by
  by_cases hr : b.rejects lens = true <;> simp [Batch.add, hr]

theorem add_false_unchanged (b : Batch) (pos : Nat) (lens : List Nat)
    (h : (b.add pos lens).2 = false) : (b.add pos lens).1 = b := by
  by_cases hr : b.rejects lens = true
  · simp [Batch.add, hr]
  · simp [Batch.add, hr] at h

theorem add_true_parts (b : Batch) (pos : Nat) (lens : List Nat)
    (h : (b.add pos lens).2 = true) :
    (b.add pos lens).1.Pos = b.Pos ++ [pos] ∧
      (b.add pos lens).1.max_lens =
        List.zipWith Nat.max b.max_lens lens ++ b.max_lens.drop lens.length ∧
      (b.add pos lens).1.batch_size = b.batch_size ∧
      (b.add pos lens).1.batch_type = b.batch_type := by
  by_cases hr : b.rejects lens = true
  · simp [Batch.add, hr] at h
  · simp [Batch.add, hr]

theorem rejects_tokens_iff (b : Batch) (lens : List Nat)
    (hbt : b.batch_type = BatchType.tokens)
    (hl : lens.length ≤ b.max_lens.length) :
    b.rejects lens = true ↔
      ∃ i < lens.length,
        b.batch_size <
          Nat.max (b.max_lens.getD i 0) (lens.getD i 0) * (b.Pos.length + 1) := by
  obtain ⟨bs, bt, P, ml⟩ := b
  simp only at hbt hl
  subst hbt
  have hrej : Batch.rejects ⟨bs, BatchType.tokens, P, ml⟩ lens =
      (List.zipWith
          (fun m l => decide (Nat.max m l * (P.length + 1) > bs)) ml
          lens).any id := rfl
  rw [hrej, List.any_eq_true]
  constructor
  · rintro ⟨x, hx, hid⟩
    obtain ⟨i, hi, heq⟩ := List.mem_iff_getElem.mp hx
    have hilen : i < lens.length := by
      simp [List.length_zipWith] at hi
      omega
    have himl : i < ml.length := by omega
    rw [List.getElem_zipWith] at heq
    refine ⟨i, hilen, ?_⟩
    rw [List.getD_eq_getElem _ _ himl, List.getD_eq_getElem _ _ hilen]
    rw [← heq] at hid
    exact of_decide_eq_true hid
  · rintro ⟨i, hilen, hlt⟩
    have himl : i < ml.length := by omega
    have hiz : i < (List.zipWith
        (fun m l => decide (Nat.max m l * (P.length + 1) > bs)) ml
        lens).length := by
      simp [List.length_zipWith]
      omega
    refine ⟨_, List.getElem_mem hiz, ?_⟩
    rw [List.getElem_zipWith]
    rw [List.getD_eq_getElem _ _ himl, List.getD_eq_getElem _ _ hilen] at hlt
    simpa using hlt

/-- The spec's concrete scenario: side 0 lines `"a b"`, `"b"` over
vocabulary `[<pad>,<unk>,<bos>,<eos>,a,b]`, side 1 lines `"x y"`, `"y"`
over `[<pad>,<unk>,<bos>,<eos>,x,y]`; `shard_size=0`, `batch_size=4`,
token policy, no length filter. -/
def scenD : Dataset :=
  { shard_size := 0
    batch_size := 4
    batch_type := BatchType.tokens
    max_length := 0
    idx_bos := [2, 2]
    idx_eos := [3, 3]
    File_Line_Idx := [[[4, 5], [5]], [[4, 5], [5]]] }

/-- C4: `Batch.add` under token policy rejects (returning `False`, leaving
the accumulator unchanged) iff some side `i` has
`max(currentMax_i, lens_i) * (size + 1) > capacity`; on acceptance it
appends the position, updates the per-side maxima to the elementwise max
and returns `True`.  In the spec's concrete scenario (token policy,
capacity 4, `"b"` of wrapped length 3 packed before `"a b"` of wrapped
length 4, where `max(3,4)*2 = 8 > 4`), packing produces two singleton
batches. -/
theorem batch_add_tokens_spec :
    (∀ (b : Batch) (pos : Nat) (lens : List Nat),
        b.batch_type = BatchType.tokens → lens.length = b.max_lens.length →
          (((b.add pos lens).2 = false ↔
              ∃ i < lens.length,
                b.batch_size <
                  Nat.max (b.max_lens.getD i 0) (lens.getD i 0) *
                    (b.Pos.length + 1)) ∧
            ((b.add pos lens).2 = false → (b.add pos lens).1 = b) ∧
            ((b.add pos lens).2 = true →
              (b.add pos lens).1.Pos = b.Pos ++ [pos] ∧
                (b.add pos lens).1.max_lens =
                  List.zipWith Nat.max b.max_lens lens))) ∧
      packShard scenD [1, 0] = [[1], [0]] := by
  constructor
  · intro b pos lens hbt hl
    refine ⟨?_, add_false_unchanged b pos lens, ?_⟩
    · rw [← rejects_tokens_iff b lens hbt (le_of_eq hl)]
      rw [add_snd_eq]
      simp
    · intro h
      obtain ⟨h1, h2, -, -⟩ := add_true_parts b pos lens h
      refine ⟨h1, ?_⟩
      rw [h2, hl, List.drop_length, List.append_nil]
  · decide

/-- Witness for C4: the scenario's second `add` (wrapped lengths `[4,4]`
into the accumulator holding one example of wrapped lengths `[3,3]`) is
rejected. -/
theorem batch_add_tokens_spec_witness :
    ((Batch.mk 4 BatchType.tokens [1] [3, 3]).add 0 [4, 4]).2 = false :=
  ((batch_add_tokens_spec.1 (Batch.mk 4 BatchType.tokens [1] [3, 3]) 0 [4, 4]
        rfl rfl).1).mpr
    (by decide)

/-! ### Packing-loop invariant machinery -/

/-- Maximum of the wrapped per-side lengths `rawLen i · + 2` over a list of
positions (0 on the empty list).  For `i < n_files` this is the value
`Batch.add` tracks in `max_lens[i]`. -/
def maxLensOver (D : Dataset) (i : Nat) (ps : List Nat) : Nat :=
  (ps.map (fun pos => D.rawLen i pos + 2)).foldr Nat.max 0

/-- Maximum raw length on side `i` over a list of positions (0 on the
empty list). -/
def maxRawOver (D : Dataset) (i : Nat) (ps : List Nat) : Nat :=
  (ps.map (fun pos => D.rawLen i pos)).foldr Nat.max 0

theorem lens_length (D : Dataset) (pos : Nat) :
    (D.lens pos).length = D.n_files := by
  simp [Dataset.lens]

theorem lens_getD (D : Dataset) (pos i : Nat) (h : i < D.n_files) :
    (D.lens pos).getD i 0 = D.rawLen i pos + 2 := by
  unfold Dataset.lens
  rw [List.getD_eq_getElem _ _ (by simpa using h)]
  simp

theorem getD_replicate_zero (n i : Nat) :
    (List.replicate n (0 : Nat)).getD i 0 = 0 := by
  rcases Nat.lt_or_ge i n with h | h
  · rw [List.getD_eq_getElem _ _ (by simpa using h)]
    simp
  · rw [List.getD_eq_default _ _ (by simpa using h)]

theorem foldr_max_append (xs : List Nat) (y : Nat) :
    (xs ++ [y]).foldr Nat.max 0 = Nat.max (xs.foldr Nat.max 0) y := by
  induction xs with
  | nil => simp [Nat.max_comm]
  | cons a xs ih =>
    simp only [List.cons_append, List.foldr_cons, ih]
    exact (Nat.max_assoc a _ y).symm

theorem maxLensOver_append (D : Dataset) (i : Nat) (ps : List Nat)
    (pos : Nat) :
    maxLensOver D i (ps ++ [pos]) =
      Nat.max (maxLensOver D i ps) (D.rawLen i pos + 2) := by
  unfold maxLensOver
  rw [List.map_append]
  exact foldr_max_append _ _

theorem maxLensOver_eq_maxRawOver (D : Dataset) (i : Nat) :
    ∀ ps : List Nat, ps ≠ [] →
      maxLensOver D i ps = maxRawOver D i ps + 2 := by
  intro ps
  induction ps with
  | nil => intro h; exact absurd rfl h
  | cons a ps ih =>
    intro _
    rcases ps with _ | ⟨b, ps⟩
    · simp [maxLensOver, maxRawOver]
    · unfold maxLensOver maxRawOver at ih ⊢
      simp only [List.map_cons, List.foldr_cons] at ih ⊢
      rw [ih (by simp)]
      exact Nat.add_max_add_right _ _ 2

theorem getD_zipWith_max (ml lens : List Nat) (i : Nat) (h1 : i < ml.length)
    (h2 : i < lens.length) :
    (List.zipWith Nat.max ml lens).getD i 0 =
      Nat.max (ml.getD i 0) (lens.getD i 0) := by
  rw [List.getD_eq_getElem _ _ (by simp [List.length_zipWith]; omega),
    List.getD_eq_getElem _ _ h1, List.getD_eq_getElem _ _ h2,
    List.getElem_zipWith]

theorem map_getD_range {α : Type} (l : List α) (d : α) :
    (List.range l.length).map (fun i => l.getD i d) = l := by
  apply List.ext_getElem
  · simp
  · intro i h1 h2
    simp [List.getD_eq_getElem?_getD, List.getElem?_eq_getElem h2]

theorem perm_map_getD {α : Type} (p : List Nat) (l : List α) (d : α)
    (h : p.Perm (List.range l.length)) :
    (p.map (fun i => l.getD i d)).Perm l := by
  have h2 := h.map (fun i => l.getD i d)
  rwa [map_getD_range l d] at h2

theorem perm_flatten {α : Type} (L1 L2 : List (List α)) (h : L1.Perm L2) :
    L1.flatten.Perm L2.flatten := by
  have h2 := h.flatMap_right id
  simpa using h2

/-- The accumulator states reachable inside the packing loop: the
configuration fields mirror the dataset's, an empty accumulator is fully
reset, under sentence policy the size never exceeds the capacity (and with
capacity 0 nothing is ever accepted), and under token policy `max_lens[i]`
is exactly the running maximum of the wrapped lengths with
`max_lens[i] * size ≤ batch_size`. -/
def PackInv (D : Dataset) (b : Batch) : Prop :=
  b.batch_size = D.batch_size ∧
  b.batch_type = D.batch_type ∧
  b.max_lens.length = D.n_files ∧
  (b.Pos = [] → b.max_lens = List.replicate D.n_files 0) ∧
  (D.batch_type = BatchType.sentences → b.Pos.length ≤ D.batch_size) ∧
  (D.batch_type = BatchType.sentences → D.batch_size = 0 → b.Pos = []) ∧
  (D.batch_type = BatchType.tokens → ∀ i, i < D.n_files →
    b.max_lens.getD i 0 = maxLensOver D i b.Pos ∧
    b.max_lens.getD i 0 * b.Pos.length ≤ D.batch_size)

theorem PackInv_reset (D : Dataset) (b : Batch)
    (h1 : b.batch_size = D.batch_size) (h2 : b.batch_type = D.batch_type) :
    PackInv D (b.reset D.n_files) := by
  refine ⟨h1, h2, by simp [Batch.reset], fun _ => rfl, by simp [Batch.reset],
    fun _ _ => rfl, ?_⟩
  intro _ i _
  constructor
  · simp [Batch.reset, maxLensOver, getD_replicate_zero]
  · simp [Batch.reset, getD_replicate_zero]

theorem PackInv_fresh (D : Dataset) : PackInv D D.freshBatch :=
  PackInv_reset D _ rfl rfl

theorem reset_eq_fresh (D : Dataset) (b : Batch)
    (h1 : b.batch_size = D.batch_size) (h2 : b.batch_type = D.batch_type) :
    b.reset D.n_files = D.freshBatch := by
  obtain ⟨bs, bt, P, ml⟩ := b
  simp only at h1 h2
  simp [Batch.reset, Dataset.freshBatch, h1, h2]

theorem PackInv_empty_eq_fresh (D : Dataset) (b : Batch) (hInv : PackInv D b)
    (h : b.Pos = []) : b = D.freshBatch := by
  obtain ⟨h1, h2, -, h4, -, -, -⟩ := hInv
  obtain ⟨bs, bt, P, ml⟩ := b
  simp only at h1 h2 h4 h
  subst h
  simp only at h4
  simp [Dataset.freshBatch, Batch.reset, h1, h2, h4 trivial]

theorem rejects_sentences_iff (b : Batch) (lens : List Nat)
    (hbt : b.batch_type = BatchType.sentences) :
    b.rejects lens = true ↔ b.Pos.length = b.batch_size := by
  obtain ⟨bs, bt, P, ml⟩ := b
  simp only at hbt
  subst hbt
  show (P.length == bs) = true ↔ P.length = bs
  simp

theorem fresh_add_snd (D : Dataset) (pos : Nat) :
    (D.freshBatch.add pos (D.lens pos)).2 = D.fits0 pos := by
  rw [add_snd_eq]
  rfl

theorem fits0_eq_false_tokens_iff (D : Dataset) (pos : Nat)
    (hbt : D.batch_type = BatchType.tokens) :
    D.fits0 pos = false ↔
      ∃ i, i < D.n_files ∧ D.batch_size < D.rawLen i pos + 2 := by
  have hnot : D.fits0 pos = false ↔
      D.freshBatch.rejects (D.lens pos) = true := by
    unfold Dataset.fits0
    cases D.freshBatch.rejects (D.lens pos) <;> simp
  rw [hnot]
  rw [rejects_tokens_iff D.freshBatch (D.lens pos) hbt
    (by rw [lens_length]; simp [Dataset.freshBatch, Batch.reset])]
  have hml : ∀ i, D.freshBatch.max_lens.getD i 0 = 0 := by
    intro i
    simp [Dataset.freshBatch, Batch.reset, getD_replicate_zero]
  have hP : D.freshBatch.Pos.length = 0 := rfl
  constructor
  · rintro ⟨i, hi, hlt⟩
    rw [lens_length] at hi
    refine ⟨i, hi, ?_⟩
    rw [lens_getD _ _ _ hi, hml, hP] at hlt
    simpa using hlt
  · rintro ⟨i, hi, hlt⟩
    refine ⟨i, by rw [lens_length]; exact hi, ?_⟩
    rw [lens_getD _ _ _ hi, hml, hP]
    simpa using hlt

theorem add_of_fits0_false (D : Dataset) (b : Batch) (pos : Nat)
    (hInv : PackInv D b) (h : D.fits0 pos = false) :
    (b.add pos (D.lens pos)).2 = false := by
  obtain ⟨h1, h2, h3, h4, h5, h6, h7⟩ := hInv
  rw [add_snd_eq]
  cases hD : D.batch_type with
  | sentences =>
    have hbs : D.batch_size = 0 := by
      unfold Dataset.fits0 at h
      have hrej : D.freshBatch.rejects (D.lens pos) = true := by
        cases hx : D.freshBatch.rejects (D.lens pos)
        · rw [hx] at h; simp at h
        · rfl
      have := (rejects_sentences_iff D.freshBatch _ (by
        show D.batch_type = BatchType.sentences
        exact hD)).mp hrej
      simpa using this.symm
    have hrejb : b.rejects (D.lens pos) = true := by
      rw [rejects_sentences_iff b _ (h2.trans hD)]
      rw [h6 hD hbs]
      simp [h1, hbs]
    rw [hrejb]
    rfl
  | tokens =>
    obtain ⟨i, hi, hlt⟩ := (fits0_eq_false_tokens_iff D pos hD).mp h
    have hrejb : b.rejects (D.lens pos) = true := by
      rw [rejects_tokens_iff b _ (h2.trans hD)
        (by rw [lens_length, ← h3])]
      refine ⟨i, by rw [lens_length]; exact hi, ?_⟩
      rw [lens_getD _ _ _ hi, h1]
      calc D.batch_size < D.rawLen i pos + 2 := hlt
        _ ≤ Nat.max (b.max_lens.getD i 0) (D.rawLen i pos + 2) :=
            Nat.le_max_right _ _
        _ ≤ Nat.max (b.max_lens.getD i 0) (D.rawLen i pos + 2) *
              (b.Pos.length + 1) :=
            Nat.le_mul_of_pos_right _ (Nat.succ_pos _)
    rw [hrejb]
    rfl

theorem add_true_fits0 (D : Dataset) (b : Batch) (pos : Nat)
    (hInv : PackInv D b) (h : (b.add pos (D.lens pos)).2 = true) :
    D.fits0 pos = true := by
  cases hx : D.fits0 pos
  · rw [add_of_fits0_false D b pos hInv hx] at h
    simp at h
  · rfl

theorem PackInv_add_true (D : Dataset) (b : Batch) (pos : Nat)
    (hInv : PackInv D b) (h : (b.add pos (D.lens pos)).2 = true) :
    PackInv D (b.add pos (D.lens pos)).1 := by
  obtain ⟨hPos, hml2, hbs2, hbt2⟩ := add_true_parts b pos (D.lens pos) h
  obtain ⟨h1, h2, h3, h4, h5, h6, h7⟩ := hInv
  have hrej : b.rejects (D.lens pos) = false := by
    rw [add_snd_eq] at h
    cases hx : b.rejects (D.lens pos)
    · rfl
    · rw [hx] at h; simp at h
  have hlenlens : (D.lens pos).length = D.n_files := lens_length D pos
  have hdrop : b.max_lens.drop (D.lens pos).length = [] := by
    rw [hlenlens, ← h3, List.drop_length]
  rw [hdrop, List.append_nil] at hml2
  refine ⟨hbs2.trans h1, hbt2.trans h2, ?_, ?_, ?_, ?_, ?_⟩
  · rw [hml2]
    simp [List.length_zipWith, hlenlens, h3]
  · intro hcon
    rw [hPos] at hcon
    simp at hcon
  · intro hs
    have hrs : b.Pos.length ≠ b.batch_size := by
      intro heq
      have hr : b.rejects (D.lens pos) = true :=
        (rejects_sentences_iff b _ (h2.trans hs)).mpr heq
      rw [hr] at hrej
      simp at hrej
    have h5' := h5 hs
    rw [hPos]
    simp only [List.length_append, List.length_cons, List.length_nil]
    have hlt : b.Pos.length < D.batch_size := by
      rcases Nat.lt_or_ge b.Pos.length D.batch_size with hlt | hge
      · exact hlt
      · exact absurd (Nat.le_antisymm h5' hge ▸ h1.symm ▸ rfl : b.Pos.length = b.batch_size) hrs
    omega
  · intro hs h0
    exfalso
    have hP6 := h6 hs h0
    have hr : b.rejects (D.lens pos) = true := by
      rw [rejects_sentences_iff b _ (h2.trans hs), hP6, h1, h0]
      rfl
    rw [hr] at hrej
    simp at hrej
  · intro ht i hi
    have h7' := h7 ht i hi
    have himl : i < b.max_lens.length := by rw [h3]; exact hi
    have hilens : i < (D.lens pos).length := by rw [hlenlens]; exact hi
    have hgd : (b.add pos (D.lens pos)).1.max_lens.getD i 0 =
        Nat.max (b.max_lens.getD i 0) ((D.lens pos).getD i 0) := by
      rw [hml2]
      exact getD_zipWith_max _ _ i himl hilens
    have hbound :
        Nat.max (b.max_lens.getD i 0) ((D.lens pos).getD i 0) *
            (b.Pos.length + 1) ≤ b.batch_size := by
      by_contra hc
      have hr : b.rejects (D.lens pos) = true := by
        rw [rejects_tokens_iff b _ (h2.trans ht) (le_of_eq (hlenlens.trans h3.symm))]
        exact ⟨i, hilens, by omega⟩
      rw [hr] at hrej
      simp at hrej
    constructor
    · rw [hgd, hPos, maxLensOver_append, h7'.1, lens_getD _ _ _ hi]
    · rw [hgd, hPos]
      simp only [List.length_append, List.length_cons, List.length_nil]
      rw [← h1]
      exact hbound

theorem packOut_cons_accept (D : Dataset) (b : Batch) (pos : Nat)
    (rest : List Nat) (hacc : (b.add pos (D.lens pos)).2 = true) :
    packOut D b (pos :: rest) = packOut D (b.add pos (D.lens pos)).1 rest := by
  have hstep : packLoop D b (pos :: rest) =
      packLoop D (b.add pos (D.lens pos)).1 rest := by
    simp only [packLoop]
    rw [if_pos hacc]
  unfold packOut
  rw [hstep]

theorem packOut_cons_flush (D : Dataset) (b : Batch) (pos : Nat)
    (rest : List Nat) (hrej : (b.add pos (D.lens pos)).2 = false)
    (hne : b.Pos.length ≠ 0) :
    packOut D b (pos :: rest) =
      b.Pos ::
        packOut D (((b.reset D.n_files).add pos (D.lens pos)).1) rest := by
  have hstep : packLoop D b (pos :: rest) =
      (b.Pos ::
          (packLoop D (((b.reset D.n_files).add pos (D.lens pos)).1) rest).1,
        (packLoop D (((b.reset D.n_files).add pos (D.lens pos)).1) rest).2) := by
    simp only [packLoop]
    rw [if_neg (by simp [hrej]), if_pos hne]
  unfold packOut
  rw [hstep]
  dsimp only
  split <;> simp

theorem packOut_cons_stuck (D : Dataset) (b : Batch) (pos : Nat)
    (rest : List Nat) (hrej : (b.add pos (D.lens pos)).2 = false)
    (he : ¬b.Pos.length ≠ 0) :
    packOut D b (pos :: rest) = packOut D b rest := by
  have hunch := add_false_unchanged b pos (D.lens pos) hrej
  have hstep : packLoop D b (pos :: rest) = packLoop D b rest := by
    simp only [packLoop]
    rw [if_neg (by simp [hrej]), if_neg he, hunch]
  unfold packOut
  rw [hstep]

/-- The flattened output of the packing loop: the incoming accumulator's
contents followed by exactly those remaining positions that fit a freshly
reset accumulator, in order.  In particular every position rejected by an
empty accumulator (an oversized example under token policy) is silently
dropped. -/
theorem packOut_flatten (D : Dataset) :
    ∀ (ps : List Nat) (b : Batch), PackInv D b →
      (packOut D b ps).flatten = b.Pos ++ ps.filter D.fits0 := by
  intro ps
  induction ps with
  | nil =>
    intro b hInv
    unfold packOut packLoop
    by_cases hP : b.Pos.length ≠ 0
    · simp [hP]
    · have hnil : b.Pos = [] := List.length_eq_zero.mp (by simpa using hP)
      simp [hP, hnil]
  | cons pos rest ih =>
    intro b hInv
    by_cases hacc : (b.add pos (D.lens pos)).2 = true
    · have hInv2 := PackInv_add_true D b pos hInv hacc
      have hfit := add_true_fits0 D b pos hInv hacc
      have hPos := (add_true_parts b pos _ hacc).1
      rw [packOut_cons_accept D b pos rest hacc, ih _ hInv2, hPos,
        List.filter_cons_of_pos hfit, List.append_assoc]
      rfl
    · have hrej : (b.add pos (D.lens pos)).2 = false := by
        cases hx : (b.add pos (D.lens pos)).2
        · rfl
        · exact absurd hx hacc
      by_cases hne : b.Pos.length ≠ 0
      · rw [packOut_cons_flush D b pos rest hrej hne]
        have hreset : b.reset D.n_files = D.freshBatch :=
          reset_eq_fresh D b hInv.1 hInv.2.1
        rw [hreset]
        cases hfit : D.fits0 pos with
        | true =>
          have hacc2 : (D.freshBatch.add pos (D.lens pos)).2 = true := by
            rw [fresh_add_snd]
            exact hfit
          have hInv2 := PackInv_add_true D D.freshBatch pos (PackInv_fresh D)
            hacc2
          have hPos2 := (add_true_parts D.freshBatch pos _ hacc2).1
          rw [List.flatten_cons, ih _ hInv2, hPos2,
            List.filter_cons_of_pos hfit]
          rfl
        | false =>
          have hrej2 : (D.freshBatch.add pos (D.lens pos)).2 = false := by
            rw [fresh_add_snd]
            exact hfit
          rw [List.flatten_cons, add_false_unchanged _ _ _ hrej2,
            ih _ (PackInv_fresh D), List.filter_cons_of_neg (by simp [hfit])]
          rfl
      · have hP : b.Pos = [] := by
          simpa using hne
        have hfresh := PackInv_empty_eq_fresh D b hInv hP
        have hfit : D.fits0 pos = false := by
          rw [← fresh_add_snd, ← hfresh]
          exact hrej
        rw [packOut_cons_stuck D b pos rest hrej hne, ih _ hInv,
          List.filter_cons_of_neg (by simp [hfit])]

/-- What holds of every batch the packing loop saves: it is non-empty,
under sentence policy its size is within the capacity, and under token
policy every side's running maximum times the size is within the
capacity. -/
def goodBatch (D : Dataset) (B : List Nat) : Prop :=
  B ≠ [] ∧
  (D.batch_type = BatchType.sentences → B.length ≤ D.batch_size) ∧
  (D.batch_type = BatchType.tokens → ∀ i, i < D.n_files →
    maxLensOver D i B * B.length ≤ D.batch_size)

theorem PackInv_goodBatch (D : Dataset) (b : Batch) (hInv : PackInv D b)
    (hne : b.Pos ≠ []) : goodBatch D b.Pos := by
  obtain ⟨-, -, -, -, h5, -, h7⟩ := hInv
  refine ⟨hne, h5, ?_⟩
  intro ht i hi
  have h7i := h7 ht i hi
  rw [← h7i.1]
  exact h7i.2

theorem packOut_good (D : Dataset) :
    ∀ (ps : List Nat) (b : Batch), PackInv D b →
      ∀ B ∈ packOut D b ps, goodBatch D B := by
  intro ps
  induction ps with
  | nil =>
    intro b hInv B hB
    unfold packOut packLoop at hB
    by_cases hP : b.Pos.length ≠ 0
    · simp only [hP, if_pos] at hB
      have hBP : B = b.Pos := (by simpa using hB : ¬b.Pos = [] ∧ B = b.Pos).2
      rw [hBP]
      exact PackInv_goodBatch D b hInv
        (fun hcon => hP (by rw [hcon]; rfl))
    · simp only [hP, if_neg] at hB
      simp at hB
  | cons pos rest ih =>
    intro b hInv B hB
    by_cases hacc : (b.add pos (D.lens pos)).2 = true
    · rw [packOut_cons_accept D b pos rest hacc] at hB
      exact ih _ (PackInv_add_true D b pos hInv hacc) B hB
    · have hrej : (b.add pos (D.lens pos)).2 = false := by
        cases hx : (b.add pos (D.lens pos)).2
        · rfl
        · exact absurd hx hacc
      by_cases hne : b.Pos.length ≠ 0
      · rw [packOut_cons_flush D b pos rest hrej hne,
          reset_eq_fresh D b hInv.1 hInv.2.1] at hB
        rcases List.mem_cons.mp hB with hBP | hB2
        · rw [hBP]
          exact PackInv_goodBatch D b hInv
            (fun hcon => hne (by rw [hcon]; rfl))
        · have hInv3 : PackInv D (D.freshBatch.add pos (D.lens pos)).1 := by
            cases hx : (D.freshBatch.add pos (D.lens pos)).2
            · rw [add_false_unchanged _ _ _ hx]
              exact PackInv_fresh D
            · exact PackInv_add_true D D.freshBatch pos (PackInv_fresh D) hx
          exact ih _ hInv3 B hB2
      · rw [packOut_cons_stuck D b pos rest hrej hne] at hB
        exact ih b hInv B hB

theorem mem_packShard_fits0 (D : Dataset) (sorted B : List Nat) (pos : Nat)
    (hB : B ∈ packShard D sorted) (hpos : pos ∈ B) : D.fits0 pos = true := by
  have hmem : pos ∈ (packShard D sorted).flatten :=
    List.mem_flatten.mpr ⟨B, hB, hpos⟩
  rw [packShard, packOut_flatten D sorted _ (PackInv_fresh D)] at hmem
  have hfresh : D.freshBatch.Pos = [] := rfl
  rw [hfresh, List.nil_append] at hmem
  exact List.of_mem_filter hmem

theorem yieldShard_mem_spec (D : Dataset) (batchs : List (List Nat))
    (idxs : List Nat) (item : List Nat × List (List (List Nat)))
    (h : item ∈ yieldShard D batchs idxs) :
    ∃ i ∈ idxs, item.1 = batchs.getD i [] ∧
      item.2 = (List.range D.n_files).map (fun n =>
        item.1.map (fun pos =>
          [D.idx_bos.getD n 0] ++ D.line n pos ++ [D.idx_eos.getD n 0])) := by
  unfold yieldShard at h
  obtain ⟨i, hi, heq⟩ := List.mem_map.mp h
  refine ⟨i, hi, ?_, ?_⟩
  · rw [← heq]
  · rw [← heq]

theorem iterShards_item_spec (D : Dataset) :
    ∀ (shards : List (List Nat)) (os : List (List Nat × List Nat))
      (item : List Nat × List (List (List Nat))),
      item ∈ iterShards D shards os →
      (item.1 = [] ∨ ∃ sorted : List Nat, item.1 ∈ packShard D sorted) ∧
        item.2 = (List.range D.n_files).map (fun n =>
          item.1.map (fun pos =>
            [D.idx_bos.getD n 0] ++ D.line n pos ++ [D.idx_eos.getD n 0])) := by
  intro shards
  induction shards with
  | nil =>
    intro os item h
    simp [iterShards] at h
  | cons shard shards ih =>
    intro os item h
    cases os with
    | nil => simp [iterShards] at h
    | cons o os =>
      simp only [iterShards] at h
      rcases List.mem_append.mp h with h1 | h2
      · obtain ⟨i, -, hfst, hsnd⟩ := yieldShard_mem_spec D _ _ item h1
        refine ⟨?_, hsnd⟩
        by_cases hlt : i <
            (packShard D
              ((o.1.map (fun j => (shard.filter D.keep).getD j 0)))).length
        · right
          refine ⟨o.1.map (fun j => (shard.filter D.keep).getD j 0), ?_⟩
          rw [hfst, List.getD_eq_getElem _ _ hlt]
          exact List.getElem_mem hlt
        · left
          rw [hfst, List.getD_eq_default _ _ (le_of_not_lt hlt)]
      · exact ih os item h2

theorem chunkGo_flatten (ss : Nat) (hss : ss ≠ 0) :
    ∀ (fuel : Nat) (l : List Nat), l.length ≤ fuel →
      (chunkGo ss fuel l).flatten = l := by
  intro fuel
  induction fuel with
  | zero =>
    intro l hl
    have hnil : l = [] := List.length_eq_zero.mp (by omega)
    rw [hnil]
    rfl
  | succ fuel ih =>
    intro l hl
    cases l with
    | nil => rfl
    | cons a l =>
      show ((a :: l).take ss :: chunkGo ss fuel ((a :: l).drop ss)).flatten =
        a :: l
      rw [List.flatten_cons,
        ih _ (by simp only [List.length_drop, List.length_cons] at hl ⊢; omega)]
      exact List.take_append_drop ss (a :: l)

theorem chunk_flatten (ss : Nat) (hss : ss ≠ 0) (l : List Nat) :
    (chunk ss l).flatten = l :=
  chunkGo_flatten ss hss l.length l (Nat.le_refl _)

theorem iterPass_eq_some (D : Dataset) (perm : List Nat)
    (oracles : List (List Nat × List Nat))
    (ys : List (List Nat × List (List (List Nat))))
    (h : iterPass D perm oracles = some ys) :
    D.File_Line_Idx.length ≠ 0 ∧ D.effShardSize ≠ 0 ∧
      ys = iterShards D (chunk D.effShardSize perm) oracles := by
  unfold iterPass at h
  by_cases h1 : D.File_Line_Idx.length = 0
  · rw [if_pos h1] at h
    exact absurd h (by simp)
  · rw [if_neg h1] at h
    by_cases h2 : D.effShardSize = 0
    · rw [if_pos h2] at h
      exact absurd h (by simp)
    · rw [if_neg h2] at h
      exact ⟨h1, h2, (Option.some.inj h).symm⟩

/-- C5: under sentence policy `Batch.add` rejects exactly when the current
size equals the capacity (per-side lengths are ignored for the decision),
and consequently every batch yielded by a pass contains at most
`batch_size` examples. -/
theorem sentences_policy_spec :
    (∀ (b : Batch) (pos : Nat) (lens : List Nat),
        b.batch_type = BatchType.sentences →
          ((b.add pos lens).2 = false ↔ b.Pos.length = b.batch_size)) ∧
      ∀ (D : Dataset) (perm : List Nat) (oracles : List (List Nat × List Nat))
        (ys : List (List Nat × List (List (List Nat)))),
        D.batch_type = BatchType.sentences →
        iterPass D perm oracles = some ys →
        ∀ item ∈ ys, item.1.length ≤ D.batch_size := by
  constructor
  · intro b pos lens hbt
    rw [add_snd_eq, ← rejects_sentences_iff b lens hbt]
    cases b.rejects lens <;> simp
  · intro D perm oracles ys hbt hiter item hitem
    obtain ⟨-, -, hys⟩ := iterPass_eq_some D perm oracles ys hiter
    rw [hys] at hitem
    obtain ⟨hfst, -⟩ := iterShards_item_spec D _ _ item hitem
    rcases hfst with hnil | ⟨sorted, hmem⟩
    · rw [hnil]
      simp
    · exact (packOut_good D sorted D.freshBatch (PackInv_fresh D) item.1
        hmem).2.1 hbt

/-- Sentence-policy engine used by the C5 witness: capacity 2, three
one-token lines. -/
def witD5 : Dataset :=
  { shard_size := 0
    batch_size := 2
    batch_type := BatchType.sentences
    max_length := 0
    idx_bos := [2]
    idx_eos := [3]
    File_Line_Idx := [[[4], [5], [6]]] }

/-- Witness for C5 on a concrete pass (batches `[0,1]` and `[2]`). -/
theorem sentences_policy_spec_witness :
    ([0, 1] : List Nat).length ≤ witD5.batch_size :=
  sentences_policy_spec.2 witD5 [0, 1, 2] [([0, 1, 2], [0, 1])]
    [([0, 1], [[[2, 4, 3], [2, 5, 3]]]), ([2], [[[2, 6, 3]]])] rfl (by decide)
    ([0, 1], [[[2, 4, 3], [2, 5, 3]]]) (by decide)

/-- C3: under token policy with capacity `T`, every yielded batch satisfies
`(max raw length on side i + 2) * size ≤ T` for every side `i`, unless it
is an oversized singleton.  (The proof establishes the first disjunct
outright: the oversized-singleton allowance is never needed, because
line 149 drops, rather than emits, an example that does not fit an empty
accumulator.) -/
theorem tokens_policy_batch_bound (D : Dataset) (perm : List Nat)
    (oracles : List (List Nat × List Nat))
    (ys : List (List Nat × List (List (List Nat))))
    (hbt : D.batch_type = BatchType.tokens)
    (hiter : iterPass D perm oracles = some ys) :
    ∀ item ∈ ys,
      (∀ i, i < D.n_files →
          (maxRawOver D i item.1 + 2) * item.1.length ≤ D.batch_size) ∨
        (item.1.length = 1 ∧
          ∃ i, i < D.n_files ∧ D.batch_size < maxRawOver D i item.1 + 2) := by
  intro item hitem
  left
  obtain ⟨-, -, hys⟩ := iterPass_eq_some D perm oracles ys hiter
  rw [hys] at hitem
  obtain ⟨hfst, -⟩ := iterShards_item_spec D _ _ item hitem
  rcases hfst with hnil | ⟨sorted, hmem⟩
  · rw [hnil]
    intro i hi
    simp
  · intro i hi
    have hgood := packOut_good D sorted D.freshBatch (PackInv_fresh D) item.1
      hmem
    have hb := hgood.2.2 hbt i hi
    rw [maxLensOver_eq_maxRawOver D i item.1 hgood.1] at hb
    exact hb

/-- Token-policy engine used by the C3 witness: capacity 4, lines of raw
lengths 2 and 1. -/
def witD3 : Dataset :=
  { shard_size := 0
    batch_size := 4
    batch_type := BatchType.tokens
    max_length := 0
    idx_bos := [2]
    idx_eos := [3]
    File_Line_Idx := [[[4, 5], [5]]] }

/-- Witness for C3 on a concrete pass (singleton batch `[1]`). -/
theorem tokens_policy_batch_bound_witness :
    (∀ i, i < witD3.n_files →
        (maxRawOver witD3 i [1] + 2) * ([1] : List Nat).length ≤
          witD3.batch_size) ∨
      (([1] : List Nat).length = 1 ∧
        ∃ i, i < witD3.n_files ∧
          witD3.batch_size < maxRawOver witD3 i [1] + 2) :=
  tokens_policy_batch_bound witD3 [0, 1] [([1, 0], [0, 1])]
    [([1], [[[2, 5, 3]]]), ([0], [[[2, 4, 5, 3]]])] rfl (by decide)
    ([1], [[[2, 5, 3]]]) (by decide)

/-- C1 (amended): under token policy an example whose wrapped length
`rawLen + 2` exceeds `batch_size` on some side is rejected again by the
retry `b.add(pos,lens)` on line 149 even after the flush (the freshly
reset accumulator still fails the capacity check, since
`lens[i] * 1 > batch_size`); the retry's returned `False` is ignored and
the example is silently dropped: it appears in NO yielded batch rather
than in a singleton oversized batch. -/
theorem oversized_example_dropped (D : Dataset) (perm : List Nat)
    (oracles : List (List Nat × List Nat))
    (ys : List (List Nat × List (List (List Nat)))) (pos : Nat)
    (hbt : D.batch_type = BatchType.tokens)
    (hover : ∃ i, i < D.n_files ∧ D.batch_size < D.rawLen i pos + 2)
    (hiter : iterPass D perm oracles = some ys) :
    ∀ item ∈ ys, pos ∉ item.1 := by
  intro item hitem hmem
  have hf : D.fits0 pos = false :=
    (fits0_eq_false_tokens_iff D pos hbt).mpr hover
  obtain ⟨-, -, hys⟩ := iterPass_eq_some D perm oracles ys hiter
  rw [hys] at hitem
  obtain ⟨hfst, -⟩ := iterShards_item_spec D _ _ item hitem
  rcases hfst with hnil | ⟨sorted, hmemB⟩
  · rw [hnil] at hmem
    simp at hmem
  · have hfit := mem_packShard_fits0 D sorted item.1 pos hmemB hmem
    rw [hf] at hfit
    simp at hfit

/-- Token-policy engine used by the C1 witness: capacity 4, a fitting line
of raw length 1 and an oversized line of raw length 3. -/
def witD1 : Dataset :=
  { shard_size := 0
    batch_size := 4
    batch_type := BatchType.tokens
    max_length := 0
    idx_bos := [2]
    idx_eos := [3]
    File_Line_Idx := [[[4], [4, 4, 4]]] }

/-- Witness for C1's amended theorem: on a concrete pass the oversized
example 1 is absent from the only yielded batch. -/
theorem oversized_example_dropped_witness :
    iterPass witD1 [0, 1] [([0, 1], [0])] = some [([0], [[[2, 4, 3]]])] ∧
      (1 : Nat) ∉
        (([0], [[[2, 4, 3]]]) : List Nat × List (List (List Nat))).1 :=
  ⟨by decide,
    oversized_example_dropped witD1 [0, 1] [([0, 1], [0])]
      [([0], [[[2, 4, 3]]])] 1 rfl ⟨0, by decide, by decide⟩ (by decide)
      ([0], [[[2, 4, 3]]]) (by decide)⟩

/-- Token-policy engine for the C1 counterexample: one line of raw
length 3 (wrapped length 5) against capacity 4. -/
def cexD1 : Dataset :=
  { shard_size := 1
    batch_size := 4
    batch_type := BatchType.tokens
    max_length := 0
    idx_bos := [2]
    idx_eos := [3]
    File_Line_Idx := [[[6, 6, 6]]] }

/-- C1 counterexample: the single example's wrapped length 5 exceeds the
token capacity 4, the filter keeps it, yet the pass yields NO batch at
all — the claimed singleton oversized batch is never emitted. -/
theorem oversized_example_dropped_cex :
    cexD1.batch_type = BatchType.tokens ∧
      cexD1.keep 0 = true ∧
      cexD1.batch_size < cexD1.rawLen 0 0 + 2 ∧
      iterPass cexD1 [0] [([0], [])] = some [] := by
  decide

/-- A per-shard oracle pair is well-formed when the argsort oracle is a
permutation of the kept positions' indices and the batch-shuffle oracle a
permutation of the batch indices (which is all `np.argsort` and
`np.random.shuffle` guarantee without fixing tie order). -/
def shardOracleOK (D : Dataset) (shard : List Nat) (o : List Nat × List Nat) :
    Prop :=
  o.1.Perm (List.range (shard.filter D.keep).length) ∧
  o.2.Perm (List.range
    (packShard D (o.1.map (fun i => (shard.filter D.keep).getD i 0))).length)

theorem yieldShard_fst_flatten_perm (D : Dataset) (batchs : List (List Nat))
    (bshuf : List Nat) (h : bshuf.Perm (List.range batchs.length)) :
    (((yieldShard D batchs bshuf).map Prod.fst).flatten).Perm
      batchs.flatten := by
  have h1 : (yieldShard D batchs bshuf).map Prod.fst =
      bshuf.map (fun i => batchs.getD i []) := by
    simp [yieldShard]
  rw [h1]
  exact perm_flatten _ _ (perm_map_getD bshuf batchs [] h)

theorem shard_positions_perm (D : Dataset) (shard : List Nat)
    (o : List Nat × List Nat) (h : shardOracleOK D shard o) :
    (((yieldShard D
          (packShard D (o.1.map (fun i => (shard.filter D.keep).getD i 0)))
          o.2).map Prod.fst).flatten).Perm
      (shard.filter (fun p => D.fits0 p && D.keep p)) := by
  obtain ⟨h1, h2⟩ := h
  have hyp := yieldShard_fst_flatten_perm D _ o.2 h2
  have hpack :
      (packShard D
          (o.1.map (fun i => (shard.filter D.keep).getD i 0))).flatten =
        (o.1.map (fun i => (shard.filter D.keep).getD i 0)).filter
          D.fits0 := by
    rw [packShard, packOut_flatten D _ _ (PackInv_fresh D)]
    rfl
  rw [hpack] at hyp
  have hsort :
      ((o.1.map (fun i => (shard.filter D.keep).getD i 0)).filter
          D.fits0).Perm ((shard.filter D.keep).filter D.fits0) :=
    List.Perm.filter _ (perm_map_getD o.1 (shard.filter D.keep) 0 h1)
  have hff : (shard.filter D.keep).filter D.fits0 =
      shard.filter (fun p => D.fits0 p && D.keep p) :=
    List.filter_filter D.keep shard
  exact hyp.trans (hsort.trans (by rw [hff]))

theorem iterShards_positions_perm (D : Dataset) :
    ∀ (shards : List (List Nat)) (os : List (List Nat × List Nat)),
      List.Forall₂ (shardOracleOK D) shards os →
      (((iterShards D shards os).map Prod.fst).flatten).Perm
        (shards.flatten.filter (fun p => D.fits0 p && D.keep p)) := by
  intro shards os h
  induction h with
  | nil => simp [iterShards]
  | cons h1 h2 ih =>
    rename_i shard o shards os
    rw [show iterShards D (shard :: shards) (o :: os) =
        yieldShard D
            (packShard D (o.1.map (fun i => (shard.filter D.keep).getD i 0)))
            o.2 ++
          iterShards D shards os from rfl]
    rw [List.map_append, List.flatten_append, List.flatten_cons,
      List.filter_append]
    exact (shard_positions_perm D shard o h1).append ih

/-- C2 (amended): in one full pass the yielded example positions are
exactly — without duplicates or omissions — the positions that both
survive the `max_length` filter (`keep`) and are accepted by a freshly
reset accumulator (`fits0`).  Under token policy `fits0` excludes every
example whose wrapped length exceeds the capacity on some side (such
examples are silently dropped by line 149), and under sentence policy with
capacity 0 it excludes everything; in all other cases it holds, giving the
claim's original statement. -/
theorem pass_positions_partition (D : Dataset) (perm : List Nat)
    (oracles : List (List Nat × List Nat))
    (ys : List (List Nat × List (List (List Nat))))
    (hperm : perm.Perm (List.range D.n_lines))
    (hor : List.Forall₂ (shardOracleOK D) (chunk D.effShardSize perm) oracles)
    (hiter : iterPass D perm oracles = some ys) :
    ((ys.map Prod.fst).flatten).Perm
        ((List.range D.n_lines).filter (fun p => D.fits0 p && D.keep p)) ∧
      ((ys.map Prod.fst).flatten).Nodup := by
  obtain ⟨-, hss, hys⟩ := iterPass_eq_some D perm oracles ys hiter
  have h1 := iterShards_positions_perm D _ _ hor
  rw [chunk_flatten D.effShardSize hss perm] at h1
  have h2 := List.Perm.filter (fun p => D.fits0 p && D.keep p) hperm
  rw [hys]
  have hp := h1.trans h2
  exact ⟨hp, hp.nodup_iff.mpr (List.Nodup.filter _ (List.nodup_range _))⟩

/-- Sentence-policy engine used by the C2 witness. -/
def witD2 : Dataset :=
  { shard_size := 0
    batch_size := 10
    batch_type := BatchType.sentences
    max_length := 0
    idx_bos := [2]
    idx_eos := [3]
    File_Line_Idx := [[[4, 5], [5]]] }

/-- Witness for C2's amended theorem on a concrete pass. -/
theorem pass_positions_partition_witness :
    ((([([0, 1], [[[2, 4, 5, 3], [2, 5, 3]]])] :
            List (List Nat × List (List (List Nat)))).map
          Prod.fst).flatten).Perm
        ((List.range witD2.n_lines).filter
          (fun p => witD2.fits0 p && witD2.keep p)) ∧
      ((([([0, 1], [[[2, 4, 5, 3], [2, 5, 3]]])] :
            List (List Nat × List (List (List Nat)))).map
          Prod.fst).flatten).Nodup :=
  pass_positions_partition witD2 [0, 1] [([0, 1], [0])]
    [([0, 1], [[[2, 4, 5, 3], [2, 5, 3]]])] (by decide)
    (List.Forall₂.cons (by constructor <;> decide) List.Forall₂.nil)
    (by decide)

/-- Token-policy engine for the C2 counterexample: a single kept example of
wrapped length 5 against token capacity 4. -/
def cexD2 : Dataset :=
  { shard_size := 1
    batch_size := 4
    batch_type := BatchType.tokens
    max_length := 0
    idx_bos := [2]
    idx_eos := [3]
    File_Line_Idx := [[[7, 7, 7]]] }

/-- C2 counterexample: the pass yields no batch at all, so the union of
yielded positions omits the kept position 0 (the claim's right-hand set is
`[0]`, since `max_length` is unset). -/
theorem pass_positions_partition_cex :
    iterPass cexD2 [0] [([0], [])] = some [] ∧
      (List.range cexD2.n_lines).filter (fun p => cexD2.keep p) = [0] := by
  decide

/-- C8 (amended): `__iter__` raises iff the engine has NO sides at all
(the `assert len(self.File_Line_Idx) > 0` checks the number of sides, not
the number of examples), or `shard_size` is 0 while the corpus has no
lines (a `range(0, 0, 0)` `ValueError`).  An engine whose sides exist but
contain zero examples passes the assert and, with a nonzero `shard_size`,
silently yields nothing. -/
theorem iterPass_none_iff (D : Dataset) (perm : List Nat)
    (oracles : List (List Nat × List Nat)) :
    iterPass D perm oracles = none ↔
      (D.File_Line_Idx.length = 0 ∨
        (D.shard_size = 0 ∧ D.n_lines = 0)) := by
  by_cases h1 : D.File_Line_Idx.length = 0
  · simp [iterPass, h1]
  · by_cases h2 : D.shard_size = 0
    · by_cases h3 : D.n_lines = 0
      · simp [iterPass, Dataset.effShardSize, h1, h2, h3]
      · simp [iterPass, Dataset.effShardSize, h1, h2, h3]
    · simp [iterPass, Dataset.effShardSize, h1, h2]

/-- Witness for C8's amended theorem: a zero-side engine raises. -/
theorem iterPass_none_iff_witness :
    iterPass
        (Dataset.mk 500000 4096 BatchType.tokens 100 [] [] []) [] [] =
      none :=
  (iterPass_none_iff (Dataset.mk 500000 4096 BatchType.tokens 100 [] [] [])
      [] []).mpr (Or.inl rfl)

/-- Engine for the C8 counterexample: one side with zero examples and a
nonzero `shard_size`. -/
def cexD8 : Dataset :=
  { shard_size := 500000
    batch_size := 4096
    batch_type := BatchType.tokens
    max_length := 100
    idx_bos := [2]
    idx_eos := [3]
    File_Line_Idx := [[]] }

/-- C8 counterexample: the engine's single side contains zero examples,
yet requesting iteration raises nothing — the pass completes and silently
yields no batches. -/
theorem empty_corpus_silent_cex :
    cexD8.n_lines = 0 ∧ iterPass cexD8 [] [] = some [] := by
  constructor
  · rfl
  · rfl

theorem getD_map_range_apply {α : Type} (m n : Nat) (f : Nat → α) (d : α)
    (h : n < m) : ((List.range m).map f).getD n d = f n := by
  rw [List.getD_eq_getElem _ _ (by simpa using h)]
  simp

theorem getD_map_lt {α β : Type} (l : List α) (f : α → β) (k : Nat) (d : β)
    (d2 : α) (h : k < l.length) : (l.map f).getD k d = f (l.getD k d2) := by
  rw [List.getD_eq_getElem _ _ (by simpa using h),
    List.getD_eq_getElem _ _ h]
  simp

theorem getD_map_nil {α β : Type} (l : List α) (f : α → List β) (d : α)
    (hd : f d = []) (k : Nat) : (l.map f).getD k [] = f (l.getD k d) := by
  rcases Nat.lt_or_ge k l.length with h | h
  · exact getD_map_lt l f k [] d h
  · rw [List.getD_eq_default _ _ (by simpa using h),
      List.getD_eq_default _ _ h, hd]

theorem getD_zipWith_lt {α β γ : Type} (f : α → β → γ) (l1 : List α)
    (l2 : List β) (n : Nat) (d : γ) (d1 : α) (d2 : β) (h1 : n < l1.length)
    (h2 : n < l2.length) :
    (List.zipWith f l1 l2).getD n d = f (l1.getD n d1) (l2.getD n d2) := by
  rw [List.getD_eq_getElem _ _ (by simp [List.length_zipWith]; omega),
    List.getD_eq_getElem _ _ h1, List.getD_eq_getElem _ _ h2,
    List.getElem_zipWith]

theorem datasetOfLines_n_files (tokLines : List (List (List String)))
    (vocs : List Vocab) (a b : Nat) (c : BatchType) (d : Nat)
    (hlen : vocs.length = tokLines.length) :
    (datasetOfLines tokLines vocs a b c d).n_files = vocs.length := by
  simp [datasetOfLines, Dataset.n_files, List.length_zipWith, hlen]

theorem datasetOfLines_line (tokLines : List (List (List String)))
    (vocs : List Vocab) (a b : Nat) (c : BatchType) (d : Nat) (n pos : Nat)
    (hlen : vocs.length = tokLines.length) (hn : n < vocs.length) :
    (datasetOfLines tokLines vocs a b c d).line n pos =
      ((tokLines.getD n []).getD pos []).map
        (vocs.getD n ⟨[]⟩).getItemStr := by
  show ((List.zipWith
      (fun voc lines => lines.map (fun l => l.map voc.getItemStr)) vocs
      tokLines).getD n []).getD pos [] = _
  rw [getD_zipWith_lt _ vocs tokLines n [] ⟨[]⟩ [] hn (by omega)]
  exact getD_map_nil _ _ [] rfl pos

theorem datasetOfLines_bos (tokLines : List (List (List String)))
    (vocs : List Vocab) (a b : Nat) (c : BatchType) (d : Nat) (n : Nat)
    (hn : n < vocs.length) :
    (datasetOfLines tokLines vocs a b c d).idx_bos.getD n 0 =
      (vocs.getD n ⟨[]⟩).idx_bos :=
  getD_map_lt vocs Vocab.idx_bos n 0 ⟨[]⟩ hn

theorem datasetOfLines_eos (tokLines : List (List (List String)))
    (vocs : List Vocab) (a b : Nat) (c : BatchType) (d : Nat) (n : Nat)
    (hn : n < vocs.length) :
    (datasetOfLines tokLines vocs a b c d).idx_eos.getD n 0 =
      (vocs.getD n ⟨[]⟩).idx_eos :=
  getD_map_lt vocs Vocab.idx_eos n 0 ⟨[]⟩ hn

/-- The round-trip property of one emitted row: with `voc` side `n`'s
vocabulary, `toks` the original whitespace-split tokens of the line at the
batch's `k`-th position, and `row` the emitted id sequence, the row starts
with the begin-marker id, ends with the end-marker id, strips to the
vocabulary-mapped ids, and every id whose token the vocabulary contains
maps back through `tokenOf` to the original token. -/
def roundTripProp (tokLines : List (List (List String))) (vocs : List Vocab)
    (item : List Nat × List (List (List Nat))) (n k : Nat) : Prop :=
  (((item.2.getD n []).getD k []).head? =
      some (vocs.getD n ⟨[]⟩).idx_bos) ∧
  (((item.2.getD n []).getD k []).getLast? =
      some (vocs.getD n ⟨[]⟩).idx_eos) ∧
  ((((item.2.getD n []).getD k []).drop 1).dropLast =
      ((tokLines.getD n []).getD (item.1.getD k 0) []).map
        (vocs.getD n ⟨[]⟩).getItemStr) ∧
  ∀ j, j < ((tokLines.getD n []).getD (item.1.getD k 0) []).length →
    (vocs.getD n ⟨[]⟩).containsStr
        (((tokLines.getD n []).getD (item.1.getD k 0) []).getD j "") =
      true →
    (vocs.getD n ⟨[]⟩).getItemInt
        (((((item.2.getD n []).getD k []).drop 1).dropLast).getD j 0 : Nat) =
      some (((tokLines.getD n []).getD (item.1.getD k 0) []).getD j "")

/-- C9: for every id sequence emitted on side `n`, the first element is
side `n`'s begin-marker id, the last is its end-marker id, and stripping
them and mapping each remaining id through `tokenOf`
(`Vocab.__getitem__` on an int) reproduces the original token sequence at
every index whose token side `n`'s vocabulary contains (unknown-mapped
tokens are lossy by design). -/
theorem emitted_rows_roundtrip (tokLines : List (List (List String)))
    (vocs : List Vocab) (shard_size batch_size : Nat) (bt : BatchType)
    (max_length : Nat) (perm : List Nat)
    (oracles : List (List Nat × List Nat))
    (ys : List (List Nat × List (List (List Nat))))
    (hlen : vocs.length = tokLines.length)
    (hiter :
      iterPass (datasetOfLines tokLines vocs shard_size batch_size bt
          max_length) perm oracles = some ys) :
    ∀ item ∈ ys, ∀ n, n < vocs.length → ∀ k, k < item.1.length →
      roundTripProp tokLines vocs item n k := by
  intro item hitem n hn k hk
  obtain ⟨-, -, hys⟩ := iterPass_eq_some _ perm oracles ys hiter
  rw [hys] at hitem
  obtain ⟨-, hsnd⟩ :=
    iterShards_item_spec (datasetOfLines tokLines vocs shard_size batch_size
      bt max_length) _ _ item hitem
  have hnf : (datasetOfLines tokLines vocs shard_size batch_size bt
      max_length).n_files = vocs.length :=
    datasetOfLines_n_files tokLines vocs _ _ _ _ hlen
  have hrow : (item.2.getD n []).getD k [] =
      [(datasetOfLines tokLines vocs shard_size batch_size bt
          max_length).idx_bos.getD n 0] ++
        (datasetOfLines tokLines vocs shard_size batch_size bt
          max_length).line n (item.1.getD k 0) ++
        [(datasetOfLines tokLines vocs shard_size batch_size bt
          max_length).idx_eos.getD n 0] := by
    rw [hsnd, getD_map_range_apply _ n _ [] (by rw [hnf]; exact hn)]
    exact getD_map_lt item.1 _ k [] 0 hk
  rw [datasetOfLines_line tokLines vocs _ _ _ _ n (item.1.getD k 0) hlen hn,
    datasetOfLines_bos tokLines vocs _ _ _ _ n hn,
    datasetOfLines_eos tokLines vocs _ _ _ _ n hn] at hrow
  have hstrip : (((item.2.getD n []).getD k []).drop 1).dropLast =
      ((tokLines.getD n []).getD (item.1.getD k 0) []).map
        (vocs.getD n ⟨[]⟩).getItemStr := by
    rw [hrow]
    show ((((tokLines.getD n []).getD (item.1.getD k 0) []).map
        (vocs.getD n ⟨[]⟩).getItemStr ++
          [(vocs.getD n ⟨[]⟩).idx_eos])).dropLast = _
    exact List.dropLast_concat
  refine ⟨?_, ?_, hstrip, ?_⟩
  · rw [hrow]
    rfl
  · rw [hrow]
    show (((vocs.getD n ⟨[]⟩).idx_bos ::
        ((tokLines.getD n []).getD (item.1.getD k 0) []).map
          (vocs.getD n ⟨[]⟩).getItemStr) ++
          [(vocs.getD n ⟨[]⟩).idx_eos]).getLast? = _
    exact List.getLast?_concat _
  · intro j hj hcont
    rw [hstrip,
      getD_map_lt ((tokLines.getD n []).getD (item.1.getD k 0) []) _ j 0 ""
        hj]
    exact containsStr_roundTrip (vocs.getD n ⟨[]⟩) _ hcont

/-- The vocabulary of the spec's concrete scenario (side 0). -/
def wVoc : Vocab := ⟨["<pad>", "<unk>", "<bos>", "<eos>", "a", "b"]⟩

/-- Witness for C9 on the spec's concrete scenario: lines `"a b"`, `"b"`,
one shard, one batch holding both positions; the emitted row for `"a b"`
is `[2, 4, 5, 3]`. -/
theorem emitted_rows_roundtrip_witness :
    roundTripProp [[["a", "b"], ["b"]]] [wVoc]
      ([0, 1], [[[2, 4, 5, 3], [2, 5, 3]]]) 0 0 :=
  emitted_rows_roundtrip [[["a", "b"], ["b"]]] [wVoc] 0 10
    BatchType.sentences 0 [0, 1] [([0, 1], [0])]
    [([0, 1], [[[2, 4, 5, 3], [2, 5, 3]]])] rfl (by decide)
    ([0, 1], [[[2, 4, 5, 3], [2, 5, 3]]]) (by decide) 0 (by decide) 0
    (by decide)
